import Mathlib

/-!
Verification development for the sputnik NFT staking contract
(`sputnik-nft-staking/src/lib.rs`): a shallow embedding of the contract's
state and entry points, and proofs of the specified properties.

Modelling conventions:
* `u128` balances and `u64` timestamps become `Nat` (the contract's
  arithmetic is checked, so overflow aborts rather than wraps; all proved
  equations hold in the non-aborting executions that `Nat` represents).
* near-sdk maps (`UnorderedMap`, `LookupMap`) become association lists with
  first-match lookup and in-place overwrite.
* A panicking entry point becomes an `Except`-valued function; an error
  result carries no state, matching the host semantics that a panic reverts
  every mutation of the invocation.
* The asynchronous parts (the promise issued by `withdraw`, the governance
  forwarding calls of `delegate`/`undelegate`) are returned as data so that
  theorems can speak about what is forwarded.
* `user.rs` and `storage_impl.rs` of this crate are not among the given
  source files; the ledger/delegation internals they define
  (`internal_deposit`, `internal_withdraw`, `internal_delegate`,
  `internal_undelegate`) are modelled from the spec, as marked on each
  definition.
-/

deriving instance DecidableEq for Except

namespace SputnikNftStaking

/-- First-match lookup in an association list, modelling near-sdk map `get`. -/
def alistGet {κ α : Type} [DecidableEq κ] (m : List (κ × α)) (k : κ) : Option α :=
  match m with
  | [] => none
  | (k₁, v) :: rest => if k₁ = k then some v else alistGet rest k

/-- Overwrite of the first match (append if absent), modelling near-sdk map
`insert`. -/
def alistSet {κ α : Type} [DecidableEq κ] (m : List (κ × α)) (k : κ) (v : α) :
    List (κ × α) :=
  match m with
  | [] => [(k, v)]
  | (k₁, v₁) :: rest => if k₁ = k then (k, v) :: rest else (k₁, v₁) :: alistSet rest k v

/-- The error taxonomy of the contract's aborting paths (panic messages
`ERR_INVALID_TOKEN`, `ERR_INVALID_MESSAGE`, `ERR_NOT_ENOUGH_AMOUNT`,
`ERR_NOT_ENOUGH_TIME_PASSED`). -/
inductive StakingError
  | InvalidToken
  | InvalidMessage
  | InsufficientBalance
  | CooldownActive
  deriving DecidableEq

/-- Per-account record (`User` of the crate's `user.rs`, shape as exposed by
the tests: `vote_amounts` per token, `delegated_amounts`, and
`next_action_timestamp`). Modelled from the spec: `staked_by_token`,
`delegated_by_token_and_target`, `next_action_eligible_at`. -/
structure User where
  vote_amounts : List (String × Nat)
  delegated_amounts : List ((String × String) × Nat)
  next_action_timestamp : Nat
  deriving DecidableEq

/-- The lazily created empty account record. -/
def User.empty : User := ⟨[], [], 0⟩

/-- The contract state (`struct Contract` of lib.rs). -/
structure Contract where
  owner_id : String
  token_ids_with_vote_weights : List (String × Nat)
  users : List (String × User)
  total_amount : List (String × Nat)
  unstake_period : Nat
  deriving DecidableEq

/-- `self.token_ids_with_vote_weights.get(&token).unwrap_or(U128(0))` —
the registered weight of a token, zero when unregistered. -/
def weightOf (c : Contract) (token : String) : Nat :=
  (alistGet c.token_ids_with_vote_weights token).getD 0

/-- Staked amount recorded in an account record for one token. -/
def staked (u : User) (token : String) : Nat :=
  (alistGet u.vote_amounts token).getD 0

/-- The stored account record of an account, or the empty record. -/
def userOf (c : Contract) (account : String) : User :=
  (alistGet c.users account).getD User.empty

/-- Staked amount of one account for one token. -/
def stakedOf (c : Contract) (account token : String) : Nat :=
  staked (userOf c account) token

/-- Global total staked for one token (`total_amount` map of lib.rs). -/
def totalOf (c : Contract) (token : String) : Nat :=
  (alistGet c.total_amount token).getD 0

/-- `nft_total_supply` of lib.rs: the running sum over `total_amount`. -/
def nft_total_supply (c : Contract) : Nat :=
  c.total_amount.foldl (fun sum i => sum + i.2) 0

/-- `total_voting_power` of lib.rs: the running sum over `total_amount` of
each amount times its token's registered weight (`unwrap_or(0)`). -/
def total_voting_power (c : Contract) : Nat :=
  c.total_amount.foldl (fun sum i => sum + i.2 * weightOf c i.1) 0

/-- Credit one token's staked amount inside an account record. -/
def creditUser (u : User) (token : String) (amount : Nat) : User :=
  { u with vote_amounts := alistSet u.vote_amounts token (staked u token + amount) }

/-- Debit one token's staked amount inside an account record (callers check
`amount ≤ staked u token` first). -/
def debitUser (u : User) (token : String) (amount : Nat) : User :=
  { u with vote_amounts := alistSet u.vote_amounts token (staked u token - amount) }

/-- Modelled from the spec: `Ledger.deposit` (the crate's `internal_deposit`,
defined in the absent `user.rs`/`storage_impl.rs`): credits
`staked_by_token[token] += amount` and `global_totals[token] += amount` in
lockstep, creating the account record if absent; no failure condition. -/
def internal_deposit (c : Contract) (account token : String) (amount : Nat) :
    Contract :=
  { c with
    users := alistSet c.users account (creditUser (userOf c account) token amount),
    total_amount := alistSet c.total_amount token (totalOf c token + amount) }

/-- Modelled from the spec: `Ledger.debit` (the crate's `internal_withdraw`,
defined in the absent `user.rs`/`storage_impl.rs`): gated by the cooldown
timestamp (`no delegate/undelegate/withdraw may be initiated before this
instant elapses`), fails with `InsufficientBalance` when the staked amount is
below `amount`, otherwise decrements the account entry and the global total
in lockstep. -/
def internal_withdraw (c : Contract) (now : Nat) (account token : String)
    (amount : Nat) : Except StakingError Contract :=
  if now < (userOf c account).next_action_timestamp then .error .CooldownActive
  else if staked (userOf c account) token < amount then .error .InsufficientBalance
  else .ok { c with
    users := alistSet c.users account (debitUser (userOf c account) token amount),
    total_amount := alistSet c.total_amount token (totalOf c token - amount) }

/-- Modelled from the spec: the delegation half of the crate's
`internal_delegate` (absent `user.rs`): allowed only when
`now ≥ next_action_eligible_at` (else `CooldownActive`); on success records
`delegated_by_token_and_target[(token, target)] += amount` and re-arms
`next_action_eligible_at = now + cooldown_duration`. -/
def internal_delegate (c : Contract) (now : Nat) (sender target token : String)
    (amount : Nat) : Except StakingError Contract :=
  if now < (userOf c sender).next_action_timestamp then .error .CooldownActive
  else .ok { c with
    users := alistSet c.users sender
      { userOf c sender with
        delegated_amounts := alistSet (userOf c sender).delegated_amounts (token, target)
          ((alistGet (userOf c sender).delegated_amounts (token, target)).getD 0 + amount),
        next_action_timestamp := now + c.unstake_period } }

/-- Modelled from the spec: the crate's `internal_undelegate` (absent
`user.rs`): same cooldown gate; on success decrements the delegation entry
(floored at zero, `Nat` subtraction) and re-arms
`next_action_eligible_at = now + cooldown_duration` identically. -/
def internal_undelegate (c : Contract) (now : Nat) (sender target token : String)
    (amount : Nat) : Except StakingError Contract :=
  if now < (userOf c sender).next_action_timestamp then .error .CooldownActive
  else .ok { c with
    users := alistSet c.users sender
      { userOf c sender with
        delegated_amounts := alistSet (userOf c sender).delegated_amounts (token, target)
          ((alistGet (userOf c sender).delegated_amounts (token, target)).getD 0 - amount),
        next_action_timestamp := now + c.unstake_period } }

/-- A forwarding call issued to the governance collaborator
(`ext_sputnik::delegate` / `ext_sputnik::undelegate`, addressed to the
owner's DAO); undelegation is the negated direction, carried by the method
rather than by a signed amount. -/
inductive GovMsg
  | gdelegate (account : String) (weighted_amount : Nat)
  | gundelegate (account : String) (weighted_amount : Nat)
  deriving DecidableEq

/-- `delegate` of lib.rs: runs `internal_delegate` for the predecessor, then
forwards `amount * weight` (weight `unwrap_or(0)`) to the governance
collaborator addressed to `account_id`. -/
def Contract.delegate (c : Contract) (now : Nat) (sender account_id token_id : String)
    (amount : Nat) : Except StakingError (Contract × GovMsg) :=
  match internal_delegate c now sender account_id token_id amount with
  | .error e => .error e
  | .ok c₁ => .ok (c₁, .gdelegate account_id (amount * weightOf c₁ token_id))

/-- `undelegate` of lib.rs: runs `internal_undelegate` for the predecessor,
then forwards `amount * weight` via the collaborator's undelegate call. -/
def Contract.undelegate (c : Contract) (now : Nat) (sender account_id token_id : String)
    (amount : Nat) : Except StakingError (Contract × GovMsg) :=
  match internal_undelegate c now sender account_id token_id amount with
  | .error e => .error e
  | .ok c₁ => .ok (c₁, .gundelegate account_id (amount * weightOf c₁ token_id))

/-- The external NFT transfer request issued by `withdraw`
(`ext_non_fungible_token::nft_transfer(sender, token_id, ...)`). -/
structure NftTransferRequest where
  receiver_id : String
  token_id : String
  deriving DecidableEq

/-- `withdraw` of lib.rs: debits the ledger optimistically
(`internal_withdraw`), then issues the external transfer back to the sender,
chained with `exchange_callback_post_withdraw(sender, token_id, amount)`. -/
def Contract.withdraw (c : Contract) (now : Nat) (sender token_id : String)
    (amount : Nat) : Except StakingError (Contract × NftTransferRequest) :=
  match internal_withdraw c now sender token_id amount with
  | .error e => .error e
  | .ok c₁ => .ok (c₁, ⟨sender, token_id⟩)

/-- Outcome of the paired external transfer as seen by the callback. -/
inductive PromiseResult
  | NotReady
  | Successful
  | Failed
  deriving DecidableEq

/-- The callback's fatal conditions: the `assert_eq!(promise_results_count(),
1, "ERR_CALLBACK_POST_WITHDRAW_INVALID")` arity check, and the
`unreachable!()` arm for a `NotReady` result. -/
inductive CallbackPanic
  | ArityViolation
  | UnreachableResult
  deriving DecidableEq

/-- `exchange_callback_post_withdraw` of lib.rs, taking the promise-result
list of the invocation: any arity other than exactly one is the fatal
`ERR_CALLBACK_POST_WITHDRAW_INVALID` assertion (reached before any state
mutation); with one result, `Successful` leaves the state untouched,
`Failed` re-deposits the debited amount, `NotReady` is `unreachable!()`. -/
def exchange_callback_post_withdraw (c : Contract) (sender_id token_id : String)
    (amount : Nat) (results : List PromiseResult) : Except CallbackPanic Contract :=
  match results with
  | [r] =>
    match r with
    | .NotReady => .error .UnreachableResult
    | .Successful => .ok c
    | .Failed => .ok (internal_deposit c sender_id token_id amount)
  | _ => .error .ArityViolation

/-- `nft_on_transfer` of lib.rs: asserts that the *predecessor* (the calling
NFT contract) is a key of `token_ids_with_vote_weights`
(`ERR_INVALID_TOKEN`), then that `msg` is empty (`ERR_INVALID_MESSAGE`),
then deposits exactly 1 unit for `sender_id` under `token_id` and returns
`false` (the contract keeps the token). -/
def nft_on_transfer (c : Contract) (predecessor sender_id _previous_owner_id
    token_id msg : String) : Except StakingError (Contract × Bool) :=
  if alistGet c.token_ids_with_vote_weights predecessor = none then
    .error .InvalidToken
  else if msg ≠ "" then .error .InvalidMessage
  else .ok (internal_deposit c sender_id token_id 1, false)

/-- Sum of the staked amounts recorded for one token across every stored
account record. -/
def sumStaked (users : List (String × User)) (token : String) : Nat :=
  match users with
  | [] => 0
  | (_, u) :: rest => staked u token + sumStaked rest token

/-- Conservation at one token: the per-account staked amounts sum to the
global total. -/
def conservedAt (c : Contract) (token : String) : Prop :=
  sumStaked c.users token = totalOf c token

/-- The conservation invariant, at every token. -/
def conserved (c : Contract) : Prop := ∀ token, conservedAt c token

/-- The ledger-mutating operations of a history: an accepted or rejected
deposit notification, the debit half of a withdrawal, and the compensating
credit run by the callback on a `Failed` transfer. -/
inductive Op
  | opDeposit (predecessor sender_id previous_owner token_id msg : String)
  | opWithdrawDebit (now : Nat) (sender token_id : String) (amount : Nat)
  | opRollbackCredit (sender token_id : String) (amount : Nat)

/-- One operation applied to the state; a rejected operation reverts to the
incoming state (a panic commits nothing). -/
def step (c : Contract) (op : Op) : Contract :=
  match op with
  | .opDeposit p s po t m =>
    match nft_on_transfer c p s po t m with
    | .ok pr => pr.1
    | .error _ => c
  | .opWithdrawDebit now s t a =>
    match internal_withdraw c now s t a with
    | .ok c₁ => c₁
    | .error _ => c
  | .opRollbackCredit s t a =>
    match exchange_callback_post_withdraw c s t a [.Failed] with
    | .ok c₁ => c₁
    | .error _ => c

/-! ## Association-list lemmas -/

theorem alistGet_alistSet_self {κ α : Type} [DecidableEq κ] (m : List (κ × α))
    (k : κ) (v : α) : alistGet (alistSet m k v) k = some v := by
  induction m with
  | nil => simp [alistGet, alistSet]
  | cons p rest ih =>
    obtain ⟨k₁, v₁⟩ := p
    by_cases h : k₁ = k
    · subst h; simp [alistGet, alistSet]
    · simp [alistGet, alistSet, h, ih]

theorem alistGet_alistSet_ne {κ α : Type} [DecidableEq κ] (m : List (κ × α))
    (k k₂ : κ) (v : α) (h : k ≠ k₂) :
    alistGet (alistSet m k v) k₂ = alistGet m k₂ := by
  induction m with
  | nil => simp [alistGet, alistSet, h]
  | cons p rest ih =>
    obtain ⟨k₁, v₁⟩ := p
    by_cases h₁ : k₁ = k
    · subst h₁; simp [alistGet, alistSet, h, Ne.symm h]
    · by_cases h₂ : k₁ = k₂ <;> simp [alistGet, alistSet, h₁, h₂, Ne.symm h, ih]

theorem getD_alistSet (m : List (String × Nat)) (t tok : String) (v : Nat) :
    (alistGet (alistSet m t v) tok).getD 0
      = if t = tok then v else (alistGet m tok).getD 0 := by
  by_cases h : t = tok
  · subst h; simp [alistGet_alistSet_self]
  · simp [alistGet_alistSet_ne m t tok v h, h]

/-! ## Account-record lemmas -/

theorem staked_empty (tok : String) : staked User.empty tok = 0 := rfl

theorem staked_creditUser (u : User) (t : String) (amt : Nat) (tok : String) :
    staked (creditUser u t amt) tok
      = staked u tok + (if t = tok then amt else 0) := by
  by_cases h : t = tok
  · subst h; simp [staked, creditUser, alistGet_alistSet_self]
  · simp [staked, creditUser, alistGet_alistSet_ne u.vote_amounts t tok _ h, h]

theorem staked_debitUser (u : User) (t : String) (amt : Nat) (tok : String) :
    staked (debitUser u t amt) tok
      = if t = tok then staked u t - amt else staked u tok := by
  by_cases h : t = tok
  · subst h; simp [staked, debitUser, alistGet_alistSet_self]
  · simp [staked, debitUser, alistGet_alistSet_ne u.vote_amounts t tok _ h, h]

/-! ## Conservation lemmas -/

theorem sumStaked_deposit (users : List (String × User)) (a t : String)
    (amt : Nat) (tok : String) :
    sumStaked (alistSet users a (creditUser ((alistGet users a).getD User.empty) t amt)) tok
      = sumStaked users tok + (if t = tok then amt else 0) := by
  induction users with
  | nil => simp [alistGet, alistSet, sumStaked, staked_creditUser, staked_empty]
  | cons p rest ih =>
    obtain ⟨k, u⟩ := p
    by_cases h : k = a
    · subst h
      simp [alistGet, alistSet, sumStaked, staked_creditUser]
      omega
    · have hih := ih
      simp only [alistGet, alistSet, if_neg h, sumStaked] at hih ⊢
      omega

theorem sumStaked_debit (users : List (String × User)) (a t : String)
    (amt : Nat) (tok : String)
    (hle : amt ≤ staked ((alistGet users a).getD User.empty) t) :
    sumStaked (alistSet users a (debitUser ((alistGet users a).getD User.empty) t amt)) tok
      + (if t = tok then amt else 0) = sumStaked users tok := by
  induction users with
  | nil =>
    have h0 : staked ((alistGet ([] : List (String × User)) a).getD User.empty) t = 0 := rfl
    rw [h0] at hle
    have h1 : amt = 0 := Nat.le_zero.mp hle
    subst h1
    simp [alistGet, alistSet, sumStaked, staked_debitUser, staked_empty]
  | cons p rest ih =>
    obtain ⟨k, u⟩ := p
    by_cases h : k = a
    · subst h
      simp [alistGet] at hle
      simp [alistGet, alistSet, sumStaked, staked_debitUser]
      by_cases ht : t = tok
      · subst ht
        simp
        omega
      · simp [ht]
    · simp only [alistGet, if_neg h] at hle
      have hih := ih hle
      simp only [alistGet, alistSet, if_neg h, sumStaked]
      omega

theorem conserved_internal_deposit (c : Contract) (a t : String) (amt : Nat)
    (h : conserved c) : conserved (internal_deposit c a t amt) := by
  intro tok
  have hs := sumStaked_deposit c.users a t amt tok
  have ht := h t
  have htok := h tok
  unfold conservedAt at ht htok ⊢
  unfold internal_deposit totalOf userOf at *
  simp only [getD_alistSet]
  by_cases he : t = tok <;> simp only [he, if_pos rfl, if_neg, reduceIte] at hs ⊢ <;> omega

theorem conserved_internal_withdraw (c c₁ : Contract) (now : Nat) (a t : String)
    (amt : Nat) (h : conserved c)
    (hw : internal_withdraw c now a t amt = .ok c₁) : conserved c₁ := by
  unfold internal_withdraw at hw
  split at hw
  · cases hw
  · split at hw
    · cases hw
    · rename_i hcool hbal
      cases hw
      intro tok
      have hle : amt ≤ staked ((alistGet c.users a).getD User.empty) t := by
        unfold userOf at hbal; omega
      have hs := sumStaked_debit c.users a t amt tok hle
      have ht := h t
      have htok := h tok
      unfold conservedAt at ht htok ⊢
      unfold totalOf userOf at *
      simp only [getD_alistSet]
      by_cases he : t = tok <;>
        simp only [he, if_pos rfl, if_neg, reduceIte] at hs ⊢ <;> omega

theorem conserved_step (c : Contract) (op : Op) (h : conserved c) :
    conserved (step c op) := by
  cases op with
  | opDeposit p s po t m =>
    simp only [step]
    cases hnt : nft_on_transfer c p s po t m with
    | error e => exact h
    | ok pr =>
      unfold nft_on_transfer at hnt
      split at hnt
      · cases hnt
      · split at hnt
        · cases hnt
        · cases hnt
          exact conserved_internal_deposit c s t 1 h
  | opWithdrawDebit now s t a =>
    simp only [step]
    cases hw : internal_withdraw c now s t a with
    | error e => exact h
    | ok c₁ => exact conserved_internal_withdraw c c₁ now s t a h hw
  | opRollbackCredit s t a =>
    exact conserved_internal_deposit c s t a h

theorem conserved_foldl (c : Contract) (ops : List Op) (h : conserved c) :
    conserved (List.foldl step c ops) := by
  induction ops generalizing c with
  | nil => exact h
  | cons op rest ih => exact ih _ (conserved_step c op h)

/-! ## Inversion lemmas for the entry points -/

theorem stakedOf_internal_deposit_self (c : Contract) (s t : String) (a : Nat) :
    stakedOf (internal_deposit c s t a) s t = stakedOf c s t + a := by
  unfold stakedOf internal_deposit userOf
  simp [alistGet_alistSet_self, staked_creditUser]

theorem totalOf_internal_deposit_self (c : Contract) (s t : String) (a : Nat) :
    totalOf (internal_deposit c s t a) t = totalOf c t + a := by
  unfold internal_deposit totalOf
  simp [alistGet_alistSet_self]

theorem withdraw_ok_inv (c c₁ : Contract) (now : Nat) (sender token : String)
    (amt : Nat) (req : NftTransferRequest)
    (h : Contract.withdraw c now sender token amt = .ok (c₁, req)) :
    ¬ now < (userOf c sender).next_action_timestamp ∧
    ¬ staked (userOf c sender) token < amt ∧
    c₁ = { c with
      users := alistSet c.users sender (debitUser (userOf c sender) token amt),
      total_amount := alistSet c.total_amount token (totalOf c token - amt) } ∧
    req = ⟨sender, token⟩ := by
  unfold Contract.withdraw internal_withdraw at h
  by_cases h₁ : now < (userOf c sender).next_action_timestamp
  · rw [if_pos h₁] at h; cases h
  · rw [if_neg h₁] at h
    by_cases h₂ : staked (userOf c sender) token < amt
    · rw [if_pos h₂] at h; cases h
    · rw [if_neg h₂] at h
      injection h with h₃
      rw [Prod.mk.injEq] at h₃
      exact ⟨h₁, h₂, h₃.1.symm, h₃.2.symm⟩

theorem delegate_ok_inv (c c₁ : Contract) (now : Nat) (sender target token : String)
    (amt : Nat) (g : GovMsg)
    (h : Contract.delegate c now sender target token amt = .ok (c₁, g)) :
    ¬ now < (userOf c sender).next_action_timestamp ∧
    c₁ = { c with
      users := alistSet c.users sender
        { userOf c sender with
          delegated_amounts := alistSet (userOf c sender).delegated_amounts (token, target)
            ((alistGet (userOf c sender).delegated_amounts (token, target)).getD 0 + amt),
          next_action_timestamp := now + c.unstake_period } } ∧
    g = .gdelegate target (amt * weightOf c₁ token) := by
  unfold Contract.delegate internal_delegate at h
  by_cases h₁ : now < (userOf c sender).next_action_timestamp
  · rw [if_pos h₁] at h; cases h
  · rw [if_neg h₁] at h
    injection h with h₂
    rw [Prod.mk.injEq] at h₂
    obtain ⟨hc, hg⟩ := h₂
    subst hc
    exact ⟨h₁, rfl, hg.symm⟩

theorem undelegate_ok_inv (c c₁ : Contract) (now : Nat) (sender target token : String)
    (amt : Nat) (g : GovMsg)
    (h : Contract.undelegate c now sender target token amt = .ok (c₁, g)) :
    ¬ now < (userOf c sender).next_action_timestamp ∧
    c₁ = { c with
      users := alistSet c.users sender
        { userOf c sender with
          delegated_amounts := alistSet (userOf c sender).delegated_amounts (token, target)
            ((alistGet (userOf c sender).delegated_amounts (token, target)).getD 0 - amt),
          next_action_timestamp := now + c.unstake_period } } ∧
    g = .gundelegate target (amt * weightOf c₁ token) := by
  unfold Contract.undelegate internal_undelegate at h
  by_cases h₁ : now < (userOf c sender).next_action_timestamp
  · rw [if_pos h₁] at h; cases h
  · rw [if_neg h₁] at h
    injection h with h₂
    rw [Prod.mk.injEq] at h₂
    obtain ⟨hc, hg⟩ := h₂
    subst hc
    exact ⟨h₁, rfl, hg.symm⟩

theorem foldl_add_mul (c : Contract) (l : List (String × Nat)) (init : Nat) :
    l.foldl (fun sum i => sum + i.2 * weightOf c i.1) init
      = init + (l.map (fun p => p.2 * weightOf c p.1)).sum := by
  induction l generalizing init with
  | nil => simp
  | cons p rest ih =>
    rw [List.foldl_cons, ih, List.map_cons, List.sum_cons, Nat.add_assoc]

/-- `new` of lib.rs: initial contract with empty `users` and `total_amount`. -/
def Contract.new (owner_id : String) (token_ids_with_vote_weights : List (String × Nat))
    (unstake_period : Nat) : Contract :=
  ⟨owner_id, token_ids_with_vote_weights, [], [], unstake_period⟩

/-- A concrete state: NFT contract `nftc` registered with weight 2, account
`alice` holding 2 staked units of token `tok`, re-arm period 10, no lock. -/
def exampleState : Contract :=
  ⟨"dao", [("nftc", 2)], [("alice", ⟨[("tok", 2)], [], 0⟩)], [("tok", 2)], 10⟩

/-- `exampleState` after the optimistic debit of 1 unit of `tok`. -/
def exampleDebited : Contract :=
  ⟨"dao", [("nftc", 2)], [("alice", ⟨[("tok", 1)], [], 0⟩)], [("tok", 1)], 10⟩

/-- `exampleState` after a deposit notification of 1 unit of `tok`. -/
def exampleDeposited : Contract :=
  ⟨"dao", [("nftc", 2)], [("alice", ⟨[("tok", 3)], [], 0⟩)], [("tok", 3)], 10⟩

/-- `exampleState` with `alice` cooldown-locked until instant 7. -/
def exampleLocked : Contract :=
  ⟨"dao", [("nftc", 2)], [("alice", ⟨[("tok", 2)], [], 7⟩)], [("tok", 2)], 10⟩

/-! ## The specified properties -/

/-- C1: for every withdrawal of amount `a` of token `t` initiated by `sender`
whose pre-withdrawal staked balance for `t` is `b = stakedOf c sender t`: if
the paired external NFT transfer reports `Failed`, the completion callback
re-deposits exactly the debited amount, leaving the account's staked balance
for `t` equal to exactly `b`; if the transfer reports `Successful`, the
callback returns the contract state unchanged. -/
theorem C1_compensation_correctness (c : Contract) (now : Nat) (sender t : String)
    (a : Nat) (c₁ : Contract) (req : NftTransferRequest)
    (hw : Contract.withdraw c now sender t a = .ok (c₁, req)) :
    (∃ c₂, exchange_callback_post_withdraw c₁ sender t a [.Failed] = .ok c₂ ∧
      stakedOf c₂ sender t = stakedOf c sender t) ∧
    exchange_callback_post_withdraw c₁ sender t a [.Successful] = .ok c₁ := by
  obtain ⟨hcool, hbal, hc₁, hreq⟩ := withdraw_ok_inv c c₁ now sender t a req hw
  refine ⟨⟨internal_deposit c₁ sender t a, rfl, ?_⟩, rfl⟩
  rw [stakedOf_internal_deposit_self]
  have h₁ : stakedOf c₁ sender t = stakedOf c sender t - a := by
    rw [hc₁]
    unfold stakedOf userOf
    simp [alistGet_alistSet_self, staked_debitUser]
  rw [h₁]
  unfold stakedOf at *
  omega

theorem C1_compensation_correctness_witness :
    (∃ c₂, exchange_callback_post_withdraw exampleDebited "alice" "tok" 1 [.Failed] = .ok c₂ ∧
      stakedOf c₂ "alice" "tok" = stakedOf exampleState "alice" "tok") ∧
    exchange_callback_post_withdraw exampleDebited "alice" "tok" 1 [.Successful]
      = .ok exampleDebited :=
  C1_compensation_correctness exampleState 0 "alice" "tok" 1 exampleDebited
    ⟨"alice", "tok"⟩ (by decide)

/-- C2: conservation — in the freshly initialized contract, and after every
operation of any sequence of deposit (`nft_on_transfer`), withdraw-debit and
rollback-credit operations, the sum over all accounts of the staked amount
for each token equals the global total recorded for that token; each
operation mutates the global total only in lockstep with the per-account
ledger mutation, so the invariant is preserved step by step. -/
theorem C2_conservation :
    (∀ (o : String) (w : List (String × Nat)) (p : Nat), conserved (Contract.new o w p)) ∧
    (∀ (c : Contract) (op : Op), conserved c → conserved (step c op)) ∧
    (∀ (c : Contract) (ops : List Op), conserved c → conserved (List.foldl step c ops)) :=
  ⟨fun _ _ _ _ => rfl, conserved_step, conserved_foldl⟩

/-- C3: the withdrawal completion callback aborts with the fatal arity
assertion (`ERR_CALLBACK_POST_WITHDRAW_INVALID`, reached before any state
mutation) exactly when the number of promise results differs from one; with
exactly one result it never aborts on the arity check. -/
theorem C3_callback_arity_check (c : Contract) (s t : String) (a : Nat)
    (results : List PromiseResult) :
    (results.length ≠ 1 →
      exchange_callback_post_withdraw c s t a results = .error .ArityViolation) ∧
    (results.length = 1 →
      exchange_callback_post_withdraw c s t a results ≠ .error .ArityViolation) := by
  constructor
  · intro h
    match results with
    | [] => rfl
    | [r] => exact absurd rfl h
    | r₁ :: r₂ :: rest => rfl
  · intro h
    match results with
    | [] => simp at h
    | [r] => cases r <;> simp [exchange_callback_post_withdraw]
    | r₁ :: r₂ :: rest => simp at h

/-- C4: a delegate or undelegate attempted strictly before the sender's
`next_action_timestamp` fails with `CooldownActive` (and, failing, changes no
state); every successful delegate or undelegate re-arms
`next_action_timestamp` to `now + unstake_period`, so after an undelegate at
`now` any delegate attempt before `now + unstake_period` fails with
`CooldownActive`. -/
theorem C4_cooldown_relock (c : Contract) (now : Nat)
    (sender target token : String) (amt : Nat) :
    (now < (userOf c sender).next_action_timestamp →
      Contract.delegate c now sender target token amt = .error .CooldownActive ∧
      Contract.undelegate c now sender target token amt = .error .CooldownActive) ∧
    (∀ c₁ g, Contract.delegate c now sender target token amt = .ok (c₁, g) →
      (userOf c₁ sender).next_action_timestamp = now + c.unstake_period) ∧
    (∀ c₁ g, Contract.undelegate c now sender target token amt = .ok (c₁, g) →
      (userOf c₁ sender).next_action_timestamp = now + c.unstake_period ∧
      ∀ now₂ target₂ token₂ amt₂, now₂ < now + c.unstake_period →
        Contract.delegate c₁ now₂ sender target₂ token₂ amt₂
          = .error .CooldownActive) := by
  refine ⟨fun h => ⟨?_, ?_⟩, fun c₁ g hok => ?_, fun c₁ g hok => ?_⟩
  · unfold Contract.delegate internal_delegate
    rw [if_pos h]
  · unfold Contract.undelegate internal_undelegate
    rw [if_pos h]
  · obtain ⟨hcool, hc₁, hg⟩ := delegate_ok_inv c c₁ now sender target token amt g hok
    rw [hc₁]
    unfold userOf
    simp [alistGet_alistSet_self]
  · obtain ⟨hcool, hc₁, hg⟩ := undelegate_ok_inv c c₁ now sender target token amt g hok
    have hn : (userOf c₁ sender).next_action_timestamp = now + c.unstake_period := by
      rw [hc₁]
      unfold userOf
      simp [alistGet_alistSet_self]
    refine ⟨hn, fun now₂ target₂ token₂ amt₂ hlt => ?_⟩
    unfold Contract.delegate internal_delegate
    rw [hn, if_pos hlt]

/-- C5: every successful `delegate(target, token, amount)` forwards exactly
`amount * weightOf token` to the governance collaborator's delegate call
addressed to `target`, and every successful `undelegate` forwards the same
weighted amount in the negated direction, via the collaborator's undelegate
call; the weight of an unregistered token-id is zero. -/
theorem C5_weighted_forwarding (c : Contract) (now : Nat)
    (sender target token : String) (amt : Nat) :
    (∀ c₁ g, Contract.delegate c now sender target token amt = .ok (c₁, g) →
      g = .gdelegate target (amt * weightOf c token)) ∧
    (∀ c₁ g, Contract.undelegate c now sender target token amt = .ok (c₁, g) →
      g = .gundelegate target (amt * weightOf c token)) ∧
    (alistGet c.token_ids_with_vote_weights token = none → weightOf c token = 0) := by
  refine ⟨fun c₁ g hok => ?_, fun c₁ g hok => ?_, fun h => ?_⟩
  · obtain ⟨hcool, hc₁, hg⟩ := delegate_ok_inv c c₁ now sender target token amt g hok
    rw [hg, hc₁]
    rfl
  · obtain ⟨hcool, hc₁, hg⟩ := undelegate_ok_inv c c₁ now sender target token amt g hok
    rw [hg, hc₁]
    rfl
  · unfold weightOf
    rw [h]
    rfl

/-- C6 counterexample: with an empty registry and the non-empty message
`"hello"`, `nft_on_transfer` fails with `InvalidToken`, not `InvalidMessage`
— the registry check precedes the message check, so a non-empty message does
not by itself determine the reported error. -/
theorem C6_check_order_counterexample :
    ("hello" : String) ≠ "" ∧
    nft_on_transfer (Contract.new "dao" [] 10) "nftc" "alice" "alice" "tok" "hello"
      = .error .InvalidToken ∧
    nft_on_transfer (Contract.new "dao" [] 10) "nftc" "alice" "alice" "tok" "hello"
      ≠ .error .InvalidMessage := by
  exact ⟨by decide, by decide, by decide⟩

/-- C6 (amended): if the calling token contract is not recognized by the
registry, `nft_on_transfer` fails with `InvalidToken`; if it is recognized
and the message is non-empty, the call fails with `InvalidMessage`; both
failures abort the call before any state mutation. -/
theorem C6_validation_failures (c : Contract) (pred sender po token msg : String) :
    (alistGet c.token_ids_with_vote_weights pred = none →
      nft_on_transfer c pred sender po token msg = .error .InvalidToken) ∧
    (alistGet c.token_ids_with_vote_weights pred ≠ none → msg ≠ "" →
      nft_on_transfer c pred sender po token msg = .error .InvalidMessage) := by
  constructor
  · intro h
    unfold nft_on_transfer
    rw [if_pos h]
  · intro h hm
    unfold nft_on_transfer
    rw [if_neg h, if_pos hm]

/-- C7: in every state, `total_voting_power` equals the sum over the
token-ids present in the global totals of the recorded total times the
registered weight of the token, the weight of an unregistered token being
zero; the query is a pure function of the state. -/
theorem C7_total_voting_power_consistency (c : Contract) :
    total_voting_power c
      = (c.total_amount.map (fun p => p.2 * weightOf c p.1)).sum ∧
    ∀ token, alistGet c.token_ids_with_vote_weights token = none →
      weightOf c token = 0 := by
  constructor
  · unfold total_voting_power
    rw [foldl_add_mul c c.total_amount 0, Nat.zero_add]
  · intro token h
    unfold weightOf
    rw [h]
    rfl

/-- C8: a withdraw initiated strictly before the sender's
`next_action_timestamp` does not proceed — it fails with `CooldownActive`,
the same gate that locks delegate and undelegate. -/
theorem C8_withdraw_cooldown_gate (c : Contract) (now : Nat) (sender token : String)
    (amt : Nat) (h : now < (userOf c sender).next_action_timestamp) :
    Contract.withdraw c now sender token amt = .error .CooldownActive := by
  unfold Contract.withdraw internal_withdraw
  rw [if_pos h]

theorem C8_withdraw_cooldown_gate_witness :
    Contract.withdraw exampleLocked 3 "alice" "tok" 1 = .error .CooldownActive :=
  C8_withdraw_cooldown_gate exampleLocked 3 "alice" "tok" 1 (by decide)

/-- C9: every accepted deposit notification credits the sender's staked
balance for the given token-id by exactly 1 unit (the notification carries no
amount), increments the global total for that token-id by exactly 1, and
returns `false`: the staking contract keeps the token. -/
theorem C9_deposit_unit_credit (c : Contract) (pred sender po token msg : String)
    (c₁ : Contract) (ret : Bool)
    (h : nft_on_transfer c pred sender po token msg = .ok (c₁, ret)) :
    ret = false ∧ stakedOf c₁ sender token = stakedOf c sender token + 1 ∧
    totalOf c₁ token = totalOf c token + 1 := by
  unfold nft_on_transfer at h
  by_cases h₁ : alistGet c.token_ids_with_vote_weights pred = none
  · rw [if_pos h₁] at h; cases h
  · rw [if_neg h₁] at h
    by_cases h₂ : msg ≠ ""
    · rw [if_pos h₂] at h; cases h
    · rw [if_neg h₂] at h
      injection h with h₃
      rw [Prod.mk.injEq] at h₃
      obtain ⟨hc, hr⟩ := h₃
      subst hc
      exact ⟨hr.symm, stakedOf_internal_deposit_self c sender token 1,
        totalOf_internal_deposit_self c sender token 1⟩

theorem C9_deposit_unit_credit_witness :
    false = false ∧
    stakedOf exampleDeposited "alice" "tok" = stakedOf exampleState "alice" "tok" + 1 ∧
    totalOf exampleDeposited "tok" = totalOf exampleState "tok" + 1 :=
  C9_deposit_unit_credit exampleState "nftc" "alice" "alice" "tok" ""
    exampleDeposited false (by decide)

/-- C10: the registry check of `nft_on_transfer` tests the predecessor (the
calling NFT contract account), not the deposited `token_id`: a call is
accepted exactly when the predecessor is registered and the message empty,
whatever `token_id` is; consequently a deposit can create staked-balance and
global-total entries under a token-id absent from the registry, which then
contributes zero to `total_voting_power`. -/
theorem C10_predecessor_registry_check :
    (∀ (c : Contract) (pred sender po token msg : String),
      (∃ r, nft_on_transfer c pred sender po token msg = .ok r) ↔
        (alistGet c.token_ids_with_vote_weights pred ≠ none ∧ msg = "")) ∧
    (∃ c₁, nft_on_transfer (Contract.new "dao" [("nftc", 2)] 10)
        "nftc" "alice" "alice" "tok" "" = .ok (c₁, false) ∧
      alistGet [(("nftc" : String), (2 : Nat))] "tok" = none ∧
      stakedOf c₁ "alice" "tok" = 1 ∧ totalOf c₁ "tok" = 1 ∧
      total_voting_power c₁ = total_voting_power (Contract.new "dao" [("nftc", 2)] 10)) := by
  constructor
  · refine fun c pred sender po token msg => ⟨?_, ?_⟩
    · rintro ⟨r, hr⟩
      unfold nft_on_transfer at hr
      by_cases h₁ : alistGet c.token_ids_with_vote_weights pred = none
      · rw [if_pos h₁] at hr; cases hr
      · by_cases h₂ : msg ≠ ""
        · rw [if_neg h₁, if_pos h₂] at hr; cases hr
        · exact ⟨h₁, not_ne_iff.mp h₂⟩
    · rintro ⟨h₁, h₂⟩
      refine ⟨(internal_deposit c sender token 1, false), ?_⟩
      subst h₂
      unfold nft_on_transfer
      rw [if_neg h₁, if_neg (fun hh => hh rfl)]
  · exact ⟨⟨"dao", [("nftc", 2)], [("alice", ⟨[("tok", 1)], [], 0⟩)], [("tok", 1)], 10⟩,
      by decide⟩

end SputnikNftStaking
